import Mathlib

/-!
Shallow embedding of the ToyEVM interpreter (`src/vm.rs`).

Machine words (`U256`) are modelled as `Nat`; every place the Rust code can
overflow, panic, or index out of bounds is made explicit with `Option`
(`none` models a Rust panic, which is fatal to the transaction).  The
`ethereum_types`/`uint` operators panic on arithmetic overflow and on
division by zero, `Vec` indexing and slicing panic out of range,
`Vec::insert` panics when the index exceeds the length, `usize` subtraction
panics on underflow (debug semantics, the documented Rust overflow
behaviour), and `U256::as_u32` panics when the value does not fit in 32
bits; each of those is reflected by an explicit guard below.
-/

namespace ToyEVM

/-- The 256-bit word modulus `2 ^ 256`. -/
def wordMod : Nat := 2 ^ 256

/-- Lowercase hex digit for a value below 16 (as produced by `hex::encode`):
digits are code points from '0' (48), letters from 'a' (97 = 87 + 10). -/
def hexDigit (n : Nat) : Char :=
  if n < 10 then Char.ofNat (48 + n) else Char.ofNat (87 + n)

/-- Two lowercase hex digits for one byte (as produced by `hex::encode`). -/
def hexByte (b : Nat) : String :=
  String.mk [hexDigit (b / 16), hexDigit (b % 16)]

/-- Lowercase hex rendering of a byte string, accumulated byte by byte as the
`operand_str` of `op_push` is. -/
def hexEncode (bs : List Nat) : String :=
  bs.foldl (fun s b => s ++ hexByte b) ""

/-- Big-endian interpretation of a byte string as a natural number: the value
of a `[u8; 32]` buffer converted into a `U256`. -/
def bytesToWord (bs : List Nat) : Nat :=
  bs.foldl (fun acc b => acc * 256 + b) 0

/-- The 32-byte big-endian buffer of a word: the `[u8; 32]` produced by
`U256`'s `into` conversion. -/
def wordToBytes (w : Nat) : List Nat :=
  (List.range 32).map (fun i => w / 256 ^ (31 - i) % 256)

/-- `U256::as_u32` (followed by the lossless `as usize`): panics when the
word does not fit in 32 bits. -/
def toU32 (w : Nat) : Option Nat :=
  if w < 2 ^ 32 then some w else none

/-- `Vec::insert(index, element)`: shifts all elements at or after `index` to
the right; panics when `index > len`. -/
def vecInsert : List Nat → Nat → Nat → Option (List Nat)
  | l, 0, b => some (b :: l)
  | [], _ + 1, _ => none
  | x :: l, n + 1, b => (vecInsert l n b).map (fun l2 => x :: l2)

/-- Read `n` consecutive bytes of `l` starting at `start`, as the Rust loops
that index `l[start + i]` do; panics (i.e. `none`) when any index is out of
range. -/
def readBytes : List Nat → Nat → Nat → Option (List Nat)
  | _, _, 0 => some []
  | l, start, n + 1 => do
    let b ← l.get? start
    let bs ← readBytes l (start + 1) n
    pure (b :: bs)

/-- The `op_mstore` loop: `for (i, b) in bytes { memory.insert(address + i, b) }`. -/
def memInsertBytes : List Nat → Nat → List Nat → Option (List Nat)
  | mem, _, [] => some mem
  | mem, i, b :: bs => do
    let mem2 ← vecInsert mem i b
    memInsertBytes mem2 (i + 1) bs

/-- The `op_codecopy` loop: at step `i` it reads `code[offset + i]` and runs
`memory.insert(dest_offset + i, b)`, `n` times. -/
def codecopyLoop (code : List Nat) : List Nat → Nat → Nat → Nat → Option (List Nat)
  | mem, _, _, 0 => some mem
  | mem, offset, dest, n + 1 => do
    let b ← code.get? offset
    let mem2 ← vecInsert mem dest b
    codecopyLoop code mem2 (offset + 1) (dest + 1) n

/-- Modelled from the spec: `util::slice_to_array` is not under `src/`.  The
spec is inconsistent about it — §4.5 says CALLDATALOAD pushes "32 bytes of
input starting at index a, zero-padded right if short" while a §9 note says
the source "does not zero-pad".  The source's own passing tests decide:
`test_loop2` runs CALLDATALOAD against one byte of calldata and asserts the
final pc/gas that only the zero-padded value `0x01 << 248` produces, and
`test_calldataload` hands it a 64-byte slice.  So the conversion fills a
zeroed 32-byte array with at most the first 32 bytes of the slice. -/
def slice_to_array (bs : List Nat) : List Nat :=
  bs.take 32 ++ List.replicate (32 - bs.length) 0

/-- Modelled from the spec: `util::h160_to_u256` is not under `src/`.  Per §2
of the spec it is the widening conversion "from 160-bit address
(zero-extended in the high bytes)"; on the `Nat` model of an `H160` value it
is the identity. -/
def h160_to_u256 (a : Nat) : Nat := a

/-- The `Environment` struct of `vm.rs` (addresses modelled as `Nat`). -/
structure Environment where
  code_owner : Nat
  sender : Nat
  gas_price : Nat
  value : Nat
  code : List Nat
  input : List Nat
  deriving DecidableEq

/-- Modelled from the spec: `state::AccountState` is not under `src/`.  Per
§3/§6 of the spec it is a persistent mapping from 256-bit word keys to word
values where missing keys read as zero and the interpreter sees its own
writes on subsequent reads; modelled as an association list with newest
binding first. -/
structure AccountState where
  storage : List (Nat × Nat)
  deriving DecidableEq

/-- Modelled from the spec: `AccountState::get_storage`, "load(key) -> word",
"missing keys read as zero". -/
def AccountState.get_storage (c : AccountState) (key : Nat) : Nat :=
  (c.storage.lookup key).getD 0

/-- Modelled from the spec: `AccountState::set_storage`, "store(key, word)";
a later `get_storage` of the same key sees this write. -/
def AccountState.set_storage (c : AccountState) (key value : Nat) : AccountState :=
  { c with storage := (key, value) :: c.storage }

/-- The `VM` struct of `vm.rs`.  The stack is kept in `Vec` order: index 0 is
the bottom, the top of stack is the last element. -/
structure VM where
  env : Environment
  pc : Nat
  gas : Nat
  sp : Nat
  stack : List Nat
  memory : List Nat
  asm : List String
  returns : List Nat
  deriving DecidableEq

/-- `VM::new`: `let gas = env.value / env.gas_price;` — integer division of
`usize` scalars, which panics when `gas_price` is zero. -/
def VM.new (env : Environment) : Option VM :=
  if env.gas_price = 0 then none
  else some
    { env := env, pc := 0, gas := env.value / env.gas_price, sp := 0,
      stack := [], memory := [], asm := [], returns := [] }

/-- `VM::push`: `self.stack.push(value); self.sp += 1;` — unconditional, the
source performs no depth check. -/
def VM.push (vm : VM) (value : Nat) : VM :=
  { vm with stack := vm.stack ++ [value], sp := vm.sp + 1 }

/-- `VM::pop`: `self.stack.pop().unwrap(); self.sp -= 1;` — fatal on an empty
stack. -/
def VM.pop (vm : VM) : Option (Nat × VM) :=
  match vm.stack.getLast? with
  | none => none
  | some v => some (v, { vm with stack := vm.stack.dropLast, sp := vm.sp - 1 })

/-- `VM::push_asm`: appends one mnemonic to the `asm` log. -/
def VM.push_asm (vm : VM) (mnemonic : String) : VM :=
  { vm with asm := vm.asm ++ [mnemonic] }

/-- `VM::consume_gas`: subtracts when `self.gas >= gas`, otherwise panics
("There is a shortage of gas."). -/
def consume_gas (gas : Nat) (vm : VM) : Option VM :=
  if gas ≤ vm.gas then some { vm with gas := vm.gas - gas } else none

/-- `op_stop` (0x00): records the mnemonic only; consumes no gas. -/
def op_stop (vm : VM) : VM :=
  vm.push_asm "STOP"

/-- `op_add` (0x01).  `U256` addition panics on overflow. -/
def op_add (vm : VM) : Option VM := do
  let vm ← consume_gas 3 vm
  let vm := vm.push_asm "ADD"
  let (operand1, vm) ← vm.pop
  let (operand2, vm) ← vm.pop
  let result := operand1 + operand2
  if result < wordMod then pure (vm.push result) else none

/-- `op_mul` (0x02).  `U256` multiplication panics on overflow. -/
def op_mul (vm : VM) : Option VM := do
  let vm ← consume_gas 5 vm
  let vm := vm.push_asm "MUL"
  let (operand1, vm) ← vm.pop
  let (operand2, vm) ← vm.pop
  let result := operand1 * operand2
  if result < wordMod then pure (vm.push result) else none

/-- `op_sub` (0x03).  `U256` subtraction panics on underflow. -/
def op_sub (vm : VM) : Option VM := do
  let vm ← consume_gas 3 vm
  let vm := vm.push_asm "SUB"
  let (operand1, vm) ← vm.pop
  let (operand2, vm) ← vm.pop
  if operand2 ≤ operand1 then pure (vm.push (operand1 - operand2)) else none

/-- `op_div` (0x04).  `U256` division panics when the divisor is zero; the
source has no zero-divisor special case. -/
def op_div (vm : VM) : Option VM := do
  let vm ← consume_gas 5 vm
  let vm := vm.push_asm "DIV"
  let (operand1, vm) ← vm.pop
  let (operand2, vm) ← vm.pop
  if operand2 = 0 then none else pure (vm.push (operand1 / operand2))

/-- `op_exp` (0x0a).  `U256::pow` panics on overflow. -/
def op_exp (vm : VM) : Option VM := do
  let vm ← consume_gas 10 vm
  let vm := vm.push_asm "EXP"
  let (operand1, vm) ← vm.pop
  let (operand2, vm) ← vm.pop
  let result := operand1 ^ operand2
  if result < wordMod then pure (vm.push result) else none

/-- `op_lt` (0x10). -/
def op_lt (vm : VM) : Option VM := do
  let vm ← consume_gas 3 vm
  let vm := vm.push_asm "LT"
  let (operand1, vm) ← vm.pop
  let (operand2, vm) ← vm.pop
  if operand1 < operand2 then pure (vm.push 1) else pure (vm.push 0)

/-- `op_gt` (0x11). -/
def op_gt (vm : VM) : Option VM := do
  let vm ← consume_gas 3 vm
  let vm := vm.push_asm "GT"
  let (operand1, vm) ← vm.pop
  let (operand2, vm) ← vm.pop
  if operand2 < operand1 then pure (vm.push 1) else pure (vm.push 0)

/-- `op_eq` (0x14). -/
def op_eq (vm : VM) : Option VM := do
  let vm ← consume_gas 3 vm
  let vm := vm.push_asm "EQ"
  let (operand1, vm) ← vm.pop
  let (operand2, vm) ← vm.pop
  if operand1 = operand2 then pure (vm.push 1) else pure (vm.push 0)

/-- `op_is_zero` (0x15). -/
def op_is_zero (vm : VM) : Option VM := do
  let vm ← consume_gas 3 vm
  let vm := vm.push_asm "ISZERO"
  let (operand1, vm) ← vm.pop
  if operand1 = 0 then pure (vm.push 1) else pure (vm.push 0)

/-- `op_and` (0x16). -/
def op_and (vm : VM) : Option VM := do
  let vm ← consume_gas 3 vm
  let vm := vm.push_asm "AND"
  let (operand1, vm) ← vm.pop
  let (operand2, vm) ← vm.pop
  pure (vm.push (Nat.land operand1 operand2))

/-- `op_or` (0x17). -/
def op_or (vm : VM) : Option VM := do
  let vm ← consume_gas 3 vm
  let vm := vm.push_asm "OR"
  let (operand1, vm) ← vm.pop
  let (operand2, vm) ← vm.pop
  pure (vm.push (Nat.lor operand1 operand2))

/-- `op_xor` (0x18). -/
def op_xor (vm : VM) : Option VM := do
  let vm ← consume_gas 3 vm
  let vm := vm.push_asm "XOR"
  let (operand1, vm) ← vm.pop
  let (operand2, vm) ← vm.pop
  pure (vm.push (Nat.xor operand1 operand2))

/-- `op_not` (0x19): bitwise complement of the 256-bit word. -/
def op_not (vm : VM) : Option VM := do
  let vm ← consume_gas 3 vm
  let vm := vm.push_asm "NOT"
  let (operand1, vm) ← vm.pop
  pure (vm.push (Nat.xor operand1 (wordMod - 1)))

/-- `op_byte` (0x1a): `let index = 248 - operand1.as_u32() as usize * 8;`
`as_u32` panics above `2 ^ 32`, and the `usize` subtraction panics
(underflow) whenever `8 * operand1 > 248`, i.e. whenever the byte index is
32 or more. -/
def op_byte (vm : VM) : Option VM := do
  let vm ← consume_gas 3 vm
  let vm := vm.push_asm "BYTE"
  let (operand1, vm) ← vm.pop
  let (operand2, vm) ← vm.pop
  let i ← toU32 operand1
  if 8 * i ≤ 248 then
    pure (vm.push (Nat.land (operand2 >>> (248 - 8 * i)) 0xff))
  else none

/-- `op_address` (0x30). -/
def op_address (vm : VM) : Option VM := do
  let vm ← consume_gas 2 vm
  let vm := vm.push_asm "ADDRESS"
  pure (vm.push (h160_to_u256 vm.env.code_owner))

/-- `op_caller` (0x33). -/
def op_caller (vm : VM) : Option VM := do
  let vm ← consume_gas 2 vm
  let vm := vm.push_asm "CALLER"
  pure (vm.push (h160_to_u256 vm.env.sender))

/-- `op_calldataload` (0x35): slices `input[start..]` (fatal when
`start > len(input)`) and converts the slice through `slice_to_array`, which
zero-pads on the right when fewer than 32 bytes remain. -/
def op_calldataload (vm : VM) : Option VM := do
  let vm ← consume_gas 3 vm
  let vm := vm.push_asm "CALLDATALOAD"
  let (w, vm) ← vm.pop
  let start ← toU32 w
  if start ≤ vm.env.input.length then
    pure (vm.push (bytesToWord (slice_to_array (vm.env.input.drop start))))
  else none

/-- `op_calldatasize` (0x36). -/
def op_calldatasize (vm : VM) : Option VM := do
  let vm ← consume_gas 2 vm
  let vm := vm.push_asm "CALLDATASIZE"
  pure (vm.push vm.env.input.length)

/-- `op_codecopy` (0x39). -/
def op_codecopy (vm : VM) : Option VM := do
  let vm ← consume_gas 9 vm
  let vm := vm.push_asm "CODECOPY"
  let (w1, vm) ← vm.pop
  let dest_offset ← toU32 w1
  let (w2, vm) ← vm.pop
  let offset ← toU32 w2
  let (w3, vm) ← vm.pop
  let length ← toU32 w3
  let mem ← codecopyLoop vm.env.code vm.memory offset dest_offset length
  pure { vm with memory := mem }

/-- `op_mload` (0x51): reads `memory[start + i]` for `i < 32`, which is fatal
whenever the 32-byte window extends past the end of memory. -/
def op_mload (vm : VM) : Option VM := do
  let vm ← consume_gas 3 vm
  let vm := vm.push_asm "MLOAD"
  let (w, vm) ← vm.pop
  let start ← toU32 w
  let bytes ← readBytes vm.memory start 32
  pure (vm.push (bytesToWord bytes))

/-- `op_mstore` (0x52): runs `memory.insert(address + i, b)` for each of the
32 big-endian bytes of the value.  `Vec::insert` shifts the existing suffix
right rather than overwriting, and panics when the index exceeds the current
length. -/
def op_mstore (vm : VM) : Option VM := do
  let vm ← consume_gas 6 vm
  let vm := vm.push_asm "MSTORE"
  let (w, vm) ← vm.pop
  let address ← toU32 w
  let (value, vm) ← vm.pop
  let mem ← memInsertBytes vm.memory address (wordToBytes value)
  pure { vm with memory := mem }

/-- `op_sload` (0x54). -/
def op_sload (vm : VM) (contract : AccountState) : Option (VM × AccountState) := do
  let vm ← consume_gas 200 vm
  let vm := vm.push_asm "SLOAD"
  let (key, vm) ← vm.pop
  pure (vm.push (contract.get_storage key), contract)

/-- `op_sstore` (0x55): pops first, then charges 20000 gas when the key is
zero and the value nonzero, otherwise 5000, then records the mnemonic and
writes storage. -/
def op_sstore (vm : VM) (contract : AccountState) : Option (VM × AccountState) := do
  let (key, vm) ← vm.pop
  let (value, vm) ← vm.pop
  let vm ← if key = 0 ∧ value ≠ 0 then consume_gas 20000 vm else consume_gas 5000 vm
  let vm := vm.push_asm "SSTORE"
  pure (vm, contract.set_storage key value)

/-- `op_jump` (0x56): reads `code[destination]` (fatal out of range), requires
it to be 0x5b, then sets `pc = destination + 1`. -/
def op_jump (vm : VM) : Option VM := do
  let vm ← consume_gas 8 vm
  let vm := vm.push_asm "JUMP"
  let (w, vm) ← vm.pop
  let destination ← toU32 w
  let b ← vm.env.code.get? destination
  if b ≠ 0x5b then none
  else pure { vm with pc := destination + 1 }

/-- `op_jumpi` (0x57): checks the JUMPDEST byte before testing the condition,
then jumps only when the condition is nonzero. -/
def op_jumpi (vm : VM) : Option VM := do
  let vm ← consume_gas 10 vm
  let vm := vm.push_asm "JUMPI"
  let (w1, vm) ← vm.pop
  let destination ← toU32 w1
  let (w2, vm) ← vm.pop
  let condition ← toU32 w2
  let b ← vm.env.code.get? destination
  if b ≠ 0x5b then none
  else if condition ≠ 0 then pure { vm with pc := destination + 1 }
  else pure vm

/-- `op_jumpdest` (0x5b): marker only. -/
def op_jumpdest (vm : VM) : Option VM := do
  let vm ← consume_gas 1 vm
  pure (vm.push_asm "JUMPDEST")

/-- `op_push` (0x60..0x7f): reads `length` immediate bytes at `pc` (fatal
when the code ends mid-immediate), advancing `pc` past them, then charges 3
gas, records "PUSH " with the lowercase hex immediate, and pushes the
big-endian immediate zero-extended to 256 bits. -/
def op_push (length : Nat) (vm : VM) : Option VM := do
  let bytes ← readBytes vm.env.code vm.pc length
  let vm := { vm with pc := vm.pc + length }
  let vm ← consume_gas 3 vm
  let vm := vm.push_asm ("PUSH " ++ hexEncode bytes)
  pure (vm.push (bytesToWord bytes))

/-- `op_dup` (0x80..0x8f): reads the top of stack (`stack[sp - 1]`, fatal when
`sp = 0`), records "DUP", and then — when `sp > 1` — *overwrites*
`stack[sp - index - 1]` with the top value (fatal `usize` underflow when
`sp < index + 1`, fatal assignment when the slot is out of range) instead of
pushing; only when `sp ≤ 1` does it push a copy of the top. -/
def op_dup (index : Nat) (vm : VM) : Option VM := do
  let vm ← consume_gas 3 vm
  if vm.sp = 0 then none
  else do
    let operand ← vm.stack.get? (vm.sp - 1)
    let vm := vm.push_asm "DUP"
    if 1 < vm.sp then
      if vm.sp < index + 1 then none
      else if vm.sp - index - 1 < vm.stack.length then
        pure { vm with stack := vm.stack.set (vm.sp - index - 1) operand }
      else none
    else pure (vm.push operand)

/-- `op_swap` (0x90..0x9f): swaps `stack[sp - 1]` with `stack[sp - index - 1]`
(fatal `usize` underflow when `sp < index + 1`, fatal indexing when either
slot is out of range). -/
def op_swap (index : Nat) (vm : VM) : Option VM := do
  let vm ← consume_gas 3 vm
  let vm := vm.push_asm "SWAP"
  if vm.sp < index + 1 then none
  else do
    let operand1 ← vm.stack.get? (vm.sp - 1)
    let operand2 ← vm.stack.get? (vm.sp - index - 1)
    pure { vm with
      stack := (vm.stack.set (vm.sp - 1) operand2).set (vm.sp - index - 1) operand1 }

/-- `op_return` (0xf3): records "RETURN" (no gas), pops offset and length,
slices `memory[offset..offset + length]` (fatal when the slice end exceeds
the memory length) into the return buffer. -/
def op_return (vm : VM) : Option VM := do
  let vm := vm.push_asm "RETURN"
  let (w1, vm) ← vm.pop
  let offset ← toU32 w1
  let (w2, vm) ← vm.pop
  let length ← toU32 w2
  if offset + length ≤ vm.memory.length then
    pure { vm with returns := (vm.memory.drop offset).take length }
  else none

/-- The handler dispatch of `VM::exec`, one branch per arm of the source
`match opcode`.  Every arm of the source match not listed here (SDIV, MOD,
SMOD, ADDMOD, MULMOD, SIGNEXTEND, SLT, SGT, SHA3, BALANCE, ORIGIN, CALLVALUE,
CALLDATACOPY, CODESIZE, GASPRICE, EXTCODESIZE, EXTCODECOPY, RETURNDATASIZE,
RETURNDATACOPY, EXTCODEHASH, the 0x40 block, POP, PC, MSIZE, GAS, the LOG
family, the CREATE/CALL family, REVERT, SELFDESTRUCT) and the wildcard arm
reach `not_implement_panic()`, so they abort the transaction: `none`. -/
def execOp (op : Nat) (vm : VM) (c : AccountState) : Option (VM × AccountState) :=
  if op = 0x00 then some (op_stop vm, c)
  else if op = 0x01 then (op_add vm).map (fun v => (v, c))
  else if op = 0x02 then (op_mul vm).map (fun v => (v, c))
  else if op = 0x03 then (op_sub vm).map (fun v => (v, c))
  else if op = 0x04 then (op_div vm).map (fun v => (v, c))
  else if op = 0x0a then (op_exp vm).map (fun v => (v, c))
  else if op = 0x10 then (op_lt vm).map (fun v => (v, c))
  else if op = 0x11 then (op_gt vm).map (fun v => (v, c))
  else if op = 0x14 then (op_eq vm).map (fun v => (v, c))
  else if op = 0x15 then (op_is_zero vm).map (fun v => (v, c))
  else if op = 0x16 then (op_and vm).map (fun v => (v, c))
  else if op = 0x17 then (op_or vm).map (fun v => (v, c))
  else if op = 0x18 then (op_xor vm).map (fun v => (v, c))
  else if op = 0x19 then (op_not vm).map (fun v => (v, c))
  else if op = 0x1a then (op_byte vm).map (fun v => (v, c))
  else if op = 0x30 then (op_address vm).map (fun v => (v, c))
  else if op = 0x33 then (op_caller vm).map (fun v => (v, c))
  else if op = 0x35 then (op_calldataload vm).map (fun v => (v, c))
  else if op = 0x36 then (op_calldatasize vm).map (fun v => (v, c))
  else if op = 0x39 then (op_codecopy vm).map (fun v => (v, c))
  else if op = 0x51 then (op_mload vm).map (fun v => (v, c))
  else if op = 0x52 then (op_mstore vm).map (fun v => (v, c))
  else if op = 0x54 then op_sload vm c
  else if op = 0x55 then op_sstore vm c
  else if op = 0x56 then (op_jump vm).map (fun v => (v, c))
  else if op = 0x57 then (op_jumpi vm).map (fun v => (v, c))
  else if op = 0x5b then (op_jumpdest vm).map (fun v => (v, c))
  else if 0x60 ≤ op ∧ op ≤ 0x7f then (op_push (op - 0x5f) vm).map (fun v => (v, c))
  else if 0x80 ≤ op ∧ op ≤ 0x8f then (op_dup (op - 0x7f) vm).map (fun v => (v, c))
  else if 0x90 ≤ op ∧ op ≤ 0x9f then (op_swap (op - 0x8f) vm).map (fun v => (v, c))
  else if op = 0xf3 then (op_return vm).map (fun v => (v, c))
  else none

/-- `VM::exec`: reads the opcode byte at `pc`, advances `pc` by one, invokes
the handler, and returns the end-of-transaction flag, which the source
computes as `match opcode 0xf3 => true, _ => false`. -/
def exec (vm : VM) (c : AccountState) : Option (VM × AccountState × Bool) := do
  let opcode ← vm.env.code.get? vm.pc
  let vm := { vm with pc := vm.pc + 1 }
  let (vm, c) ← execOp opcode vm c
  pure (vm, c, opcode == 0xf3)

/-- `VM::exec_transaction`: loops `exec` until `pc` reaches the end of code
or a handler signals halt.  The source loop has no bound; the `fuel`
argument only makes the recursion structural, with `none` on exhaustion. -/
def exec_transaction : Nat → VM → AccountState → Option (VM × AccountState)
  | 0, _, _ => none
  | fuel + 1, vm, c =>
    if vm.env.code.length ≤ vm.pc then some (vm, c)
    else
      match exec vm c with
      | none => none
      | some (vm2, c2, true) => some (vm2, c2)
      | some (vm2, c2, false) => exec_transaction fuel vm2 c2

/-- The gas `op_sstore` charges, read off the two topmost stack slots it pops
(key on top, then value). -/
def sstoreCost (stack : List Nat) : Nat :=
  let key := stack.getLast?.getD 0
  let value := stack.dropLast.getLast?.getD 0
  if key = 0 ∧ value ≠ 0 then 20000 else 5000

/-- The gas cost each handler passes to `consume_gas` (0 for STOP and RETURN,
which never charge), as a function of the opcode byte and — for SSTORE — of
the operands.  Branch structure mirrors `execOp`. -/
def opCost (op : Nat) (stack : List Nat) : Nat :=
  if op = 0x00 then 0
  else if op = 0x01 then 3
  else if op = 0x02 then 5
  else if op = 0x03 then 3
  else if op = 0x04 then 5
  else if op = 0x0a then 10
  else if op = 0x10 then 3
  else if op = 0x11 then 3
  else if op = 0x14 then 3
  else if op = 0x15 then 3
  else if op = 0x16 then 3
  else if op = 0x17 then 3
  else if op = 0x18 then 3
  else if op = 0x19 then 3
  else if op = 0x1a then 3
  else if op = 0x30 then 2
  else if op = 0x33 then 2
  else if op = 0x35 then 3
  else if op = 0x36 then 2
  else if op = 0x39 then 9
  else if op = 0x51 then 3
  else if op = 0x52 then 6
  else if op = 0x54 then 200
  else if op = 0x55 then sstoreCost stack
  else if op = 0x56 then 8
  else if op = 0x57 then 10
  else if op = 0x5b then 1
  else if 0x60 ≤ op ∧ op ≤ 0x7f then 3
  else if 0x80 ≤ op ∧ op ≤ 0x8f then 3
  else if 0x90 ≤ op ∧ op ≤ 0x9f then 3
  else if op = 0xf3 then 0
  else 0

/-- The gas cost of the opcode about to be dispatched at `vm.pc`. -/
def dispatchCost (vm : VM) : Nat :=
  match vm.env.code.get? vm.pc with
  | none => 0
  | some op => opCost op vm.stack

/-- The list of per-opcode gas costs along a run of `exec_transaction`, one
entry per dispatched opcode. -/
def traceCosts : Nat → VM → AccountState → Option (List Nat)
  | 0, _, _ => none
  | fuel + 1, vm, c =>
    if vm.env.code.length ≤ vm.pc then some []
    else
      match exec vm c with
      | none => none
      | some (_, _, true) => some [dispatchCost vm]
      | some (vm2, c2, false) => (traceCosts fuel vm2 c2).map (fun l => dispatchCost vm :: l)

/-- Environment builder for the concrete states used in the executable
checks below (scalars as in the source's tests, addresses zero). -/
def mkEnv (code input : List Nat) : Environment :=
  { code_owner := 0, sender := 0, gas_price := 1, value := 0,
    code := code, input := input }

/-- Concrete machine-state builder for the executable checks below. -/
def testVM (code input stack memory : List Nat) (pc gas : Nat) : VM :=
  { env := mkEnv code input, pc := pc, gas := gas, sp := stack.length,
    stack := stack, memory := memory, asm := [], returns := [] }

/-- An account with empty storage. -/
def st0 : AccountState := ⟨[]⟩

/-- The ADD program of the source's `test_add` (PUSH1 5, PUSH1 4, ADD), with
100 gas. -/
def addVM : VM := testVM [0x60, 0x05, 0x60, 0x04, 0x01] [] [] [] 0 100

/-- The machine `addVM` reaches after running to completion. -/
def addVMFinal : VM :=
  { env := mkEnv [0x60, 0x05, 0x60, 0x04, 0x01] [], pc := 5, gas := 91, sp := 1,
    stack := [9], memory := [], asm := ["PUSH 05", "PUSH 04", "ADD"], returns := [] }

/-- A machine about to dispatch DUP1 (byte 0x80 at pc 4) on the stack [5, 4]
(4 on top), as the source's `test_dup1` does. -/
def dupVM : VM := testVM [0x60, 0x05, 0x60, 0x04, 0x80] [] [5, 4] [] 4 10

/-- What the DUP1 dispatch from `dupVM` produces. -/
def dupVMOut : VM :=
  { env := mkEnv [0x60, 0x05, 0x60, 0x04, 0x80] [], pc := 5, gas := 7, sp := 2,
    stack := [4, 4], memory := [], asm := ["DUP"], returns := [] }

/-- A machine about to dispatch RETURN (byte 0xf3 at pc 4) with offset 0 and
length 0 on the stack. -/
def retVM : VM := testVM [0x60, 0x00, 0x60, 0x00, 0xf3] [] [0, 0] [] 4 10

/-- What the RETURN dispatch from `retVM` produces. -/
def retVMOut : VM :=
  { env := mkEnv [0x60, 0x00, 0x60, 0x00, 0xf3] [], pc := 5, gas := 10, sp := 0,
    stack := [], memory := [], asm := ["RETURN"], returns := [] }

/-- A machine about to dispatch byte 0x3f (EXTCODEHASH). -/
def extVM : VM := testVM [0x3f] [] [] [] 0 10

/-- A machine about to dispatch PUSH1 7 with the stack already holding 1024
words. -/
def fullVM : VM := testVM [0x60, 0x07] [] (List.replicate 1024 0) [] 0 10

/-- What the PUSH1 dispatch from `fullVM` produces: depth 1025. -/
def fullVMOut : VM :=
  { env := mkEnv [0x60, 0x07] [], pc := 2, gas := 7, sp := 1025,
    stack := List.replicate 1024 0 ++ [7], memory := [], asm := ["PUSH 07"],
    returns := [] }

/-- A machine about to run MSTORE with address 0 and value 9 on empty
memory. -/
def mstVM : VM := testVM [0x52] [] [9, 0] [] 0 20

/-- `mstVM` after one MSTORE: 32 bytes of memory. -/
def mstOnce : VM :=
  { env := mkEnv [0x52] [], pc := 0, gas := 14, sp := 0, stack := [],
    memory := wordToBytes 9, asm := ["MSTORE"], returns := [] }

/-- `mstOnce` with the same two operands loaded again. -/
def mstAgain : VM := { mstOnce with stack := [9, 0], sp := 2 }

/-- `mstAgain` after the second, identical MSTORE: 64 bytes of memory, the
32-byte value twice. -/
def mstTwice : VM :=
  { mstOnce with
    gas := 8
    memory := wordToBytes 9 ++ wordToBytes 9
    asm := ["MSTORE", "MSTORE"] }

/-- A machine running MLOAD at offset 0 with completely unwritten memory. -/
def mloadVM : VM := testVM [0x51] [] [0] [] 0 10

/-- A machine running MLOAD at offset 0 with only 3 bytes of memory
written. -/
def mloadVM6 : VM := testVM [0x51] [] [0] [1, 2, 3] 0 10

/-- A machine running DIV with a = 7 on top and divisor b = 0 beneath. -/
def divZeroVM : VM := testVM [0x04] [] [0, 7] [] 0 10

/-- A machine running BYTE with index 32 on top and x = 5 beneath. -/
def byteVM : VM := testVM [0x1a] [] [5, 32] [] 0 10

/-- A machine running CALLDATALOAD with index 2 against 1 byte of
calldata. -/
def cdlVM : VM := testVM [0x35] [7] [2] [] 0 10

/-- An environment whose gas price is zero. -/
def envZeroPrice : Environment :=
  { code_owner := 0, sender := 0, gas_price := 0, value := 5, code := [], input := [] }

/-- The environment of the source's `test_new`: gas price 10_000_000, value
100_000_000_000_000_000. -/
def envTen : Environment :=
  { code_owner := 0, sender := 0, gas_price := 10000000, value := 100000000000000000,
    code := [0x60, 0x05, 0x60, 0x04, 0x01], input := [] }

theorem optBind_eq_some {α β : Type} {o : Option α} {f : α → Option β} {b : β} :
    o >>= f = some b ↔ ∃ a, o = some a ∧ f a = some b := by
  cases o <;> simp

theorem consume_gas_eq_some {n : Nat} {vm vm' : VM} :
    consume_gas n vm = some vm' ↔
      n ≤ vm.gas ∧ vm' = { vm with gas := vm.gas - n } := by
  unfold consume_gas
  split <;> rename_i h <;> simp [h, eq_comm]

theorem pop_eq_some {vm vm' : VM} {a : Nat} :
    vm.pop = some (a, vm') ↔
      vm.stack.getLast? = some a ∧
      vm' = { vm with stack := vm.stack.dropLast, sp := vm.sp - 1 } := by
  unfold VM.pop
  cases h : vm.stack.getLast? <;> simp [h, eq_comm, and_comm]

@[simp] theorem push_gas (vm : VM) (v : Nat) : (vm.push v).gas = vm.gas := rfl

@[simp] theorem push_asm_gas (vm : VM) (s : String) : (vm.push_asm s).gas = vm.gas := rfl

theorem op_add_gas (vm vm' : VM) (h : op_add vm = some vm') : vm'.gas + 3 = vm.gas := by
  unfold op_add at h
  simp only [optBind_eq_some] at h
  obtain ⟨v1, hg, ⟨a, v2⟩, ha, ⟨b, v3⟩, hb, h⟩ := h
  rw [consume_gas_eq_some] at hg
  rw [pop_eq_some] at ha hb
  obtain ⟨hgle, rfl⟩ := hg
  obtain ⟨-, rfl⟩ := ha
  obtain ⟨-, rfl⟩ := hb
  split at h
  · simp only [Option.pure_def, Option.some.injEq] at h
    subst h
    simp [VM.push, VM.push_asm]
    omega
  · exact absurd h (by simp)

theorem op_mul_gas (vm vm' : VM) (h : op_mul vm = some vm') : vm'.gas + 5 = vm.gas := by
  unfold op_mul at h
  simp only [optBind_eq_some] at h
  obtain ⟨v1, hg, ⟨a, v2⟩, ha, ⟨b, v3⟩, hb, h⟩ := h
  rw [consume_gas_eq_some] at hg
  rw [pop_eq_some] at ha hb
  obtain ⟨hgle, rfl⟩ := hg
  obtain ⟨-, rfl⟩ := ha
  obtain ⟨-, rfl⟩ := hb
  split at h
  · simp only [Option.pure_def, Option.some.injEq] at h
    subst h
    simp [VM.push, VM.push_asm]
    omega
  · exact absurd h (by simp)

theorem op_sub_gas (vm vm' : VM) (h : op_sub vm = some vm') : vm'.gas + 3 = vm.gas := by
  unfold op_sub at h
  simp only [optBind_eq_some] at h
  obtain ⟨v1, hg, ⟨a, v2⟩, ha, ⟨b, v3⟩, hb, h⟩ := h
  rw [consume_gas_eq_some] at hg
  rw [pop_eq_some] at ha hb
  obtain ⟨hgle, rfl⟩ := hg
  obtain ⟨-, rfl⟩ := ha
  obtain ⟨-, rfl⟩ := hb
  split at h
  · simp only [Option.pure_def, Option.some.injEq] at h
    subst h
    simp [VM.push, VM.push_asm]
    omega
  · exact absurd h (by simp)

theorem op_div_gas (vm vm' : VM) (h : op_div vm = some vm') : vm'.gas + 5 = vm.gas := by
  unfold op_div at h
  simp only [optBind_eq_some] at h
  obtain ⟨v1, hg, ⟨a, v2⟩, ha, ⟨b, v3⟩, hb, h⟩ := h
  rw [consume_gas_eq_some] at hg
  rw [pop_eq_some] at ha hb
  obtain ⟨hgle, rfl⟩ := hg
  obtain ⟨-, rfl⟩ := ha
  obtain ⟨-, rfl⟩ := hb
  split at h
  · exact absurd h (by simp)
  · simp only [Option.pure_def, Option.some.injEq] at h
    subst h
    simp [VM.push, VM.push_asm]
    omega

theorem op_exp_gas (vm vm' : VM) (h : op_exp vm = some vm') : vm'.gas + 10 = vm.gas := by
  unfold op_exp at h
  simp only [optBind_eq_some] at h
  obtain ⟨v1, hg, ⟨a, v2⟩, ha, ⟨b, v3⟩, hb, h⟩ := h
  rw [consume_gas_eq_some] at hg
  rw [pop_eq_some] at ha hb
  obtain ⟨hgle, rfl⟩ := hg
  obtain ⟨-, rfl⟩ := ha
  obtain ⟨-, rfl⟩ := hb
  split at h
  · simp only [Option.pure_def, Option.some.injEq] at h
    subst h
    simp [VM.push, VM.push_asm]
    omega
  · exact absurd h (by simp)

theorem op_lt_gas (vm vm' : VM) (h : op_lt vm = some vm') : vm'.gas + 3 = vm.gas := by
  unfold op_lt at h
  simp only [optBind_eq_some] at h
  obtain ⟨v1, hg, ⟨a, v2⟩, ha, ⟨b, v3⟩, hb, h⟩ := h
  rw [consume_gas_eq_some] at hg
  rw [pop_eq_some] at ha hb
  obtain ⟨hgle, rfl⟩ := hg
  obtain ⟨-, rfl⟩ := ha
  obtain ⟨-, rfl⟩ := hb
  split at h <;>
    · simp only [Option.pure_def, Option.some.injEq] at h
      subst h
      simp [VM.push, VM.push_asm]
      omega

theorem op_gt_gas (vm vm' : VM) (h : op_gt vm = some vm') : vm'.gas + 3 = vm.gas := by
  unfold op_gt at h
  simp only [optBind_eq_some] at h
  obtain ⟨v1, hg, ⟨a, v2⟩, ha, ⟨b, v3⟩, hb, h⟩ := h
  rw [consume_gas_eq_some] at hg
  rw [pop_eq_some] at ha hb
  obtain ⟨hgle, rfl⟩ := hg
  obtain ⟨-, rfl⟩ := ha
  obtain ⟨-, rfl⟩ := hb
  split at h <;>
    · simp only [Option.pure_def, Option.some.injEq] at h
      subst h
      simp [VM.push, VM.push_asm]
      omega

theorem op_eq_gas (vm vm' : VM) (h : op_eq vm = some vm') : vm'.gas + 3 = vm.gas := by
  unfold op_eq at h
  simp only [optBind_eq_some] at h
  obtain ⟨v1, hg, ⟨a, v2⟩, ha, ⟨b, v3⟩, hb, h⟩ := h
  rw [consume_gas_eq_some] at hg
  rw [pop_eq_some] at ha hb
  obtain ⟨hgle, rfl⟩ := hg
  obtain ⟨-, rfl⟩ := ha
  obtain ⟨-, rfl⟩ := hb
  split at h <;>
    · simp only [Option.pure_def, Option.some.injEq] at h
      subst h
      simp [VM.push, VM.push_asm]
      omega

theorem op_is_zero_gas (vm vm' : VM) (h : op_is_zero vm = some vm') : vm'.gas + 3 = vm.gas := by
  unfold op_is_zero at h
  simp only [optBind_eq_some] at h
  obtain ⟨v1, hg, ⟨a, v2⟩, ha, h⟩ := h
  rw [consume_gas_eq_some] at hg
  rw [pop_eq_some] at ha
  obtain ⟨hgle, rfl⟩ := hg
  obtain ⟨-, rfl⟩ := ha
  split at h <;>
    · simp only [Option.pure_def, Option.some.injEq] at h
      subst h
      simp [VM.push, VM.push_asm]
      omega

theorem op_and_gas (vm vm' : VM) (h : op_and vm = some vm') : vm'.gas + 3 = vm.gas := by
  unfold op_and at h
  simp only [optBind_eq_some] at h
  obtain ⟨v1, hg, ⟨a, v2⟩, ha, ⟨b, v3⟩, hb, h⟩ := h
  rw [consume_gas_eq_some] at hg
  rw [pop_eq_some] at ha hb
  obtain ⟨hgle, rfl⟩ := hg
  obtain ⟨-, rfl⟩ := ha
  obtain ⟨-, rfl⟩ := hb
  simp only [Option.pure_def, Option.some.injEq] at h
  subst h
  simp [VM.push, VM.push_asm]
  omega

theorem op_or_gas (vm vm' : VM) (h : op_or vm = some vm') : vm'.gas + 3 = vm.gas := by
  unfold op_or at h
  simp only [optBind_eq_some] at h
  obtain ⟨v1, hg, ⟨a, v2⟩, ha, ⟨b, v3⟩, hb, h⟩ := h
  rw [consume_gas_eq_some] at hg
  rw [pop_eq_some] at ha hb
  obtain ⟨hgle, rfl⟩ := hg
  obtain ⟨-, rfl⟩ := ha
  obtain ⟨-, rfl⟩ := hb
  simp only [Option.pure_def, Option.some.injEq] at h
  subst h
  simp [VM.push, VM.push_asm]
  omega

theorem op_xor_gas (vm vm' : VM) (h : op_xor vm = some vm') : vm'.gas + 3 = vm.gas := by
  unfold op_xor at h
  simp only [optBind_eq_some] at h
  obtain ⟨v1, hg, ⟨a, v2⟩, ha, ⟨b, v3⟩, hb, h⟩ := h
  rw [consume_gas_eq_some] at hg
  rw [pop_eq_some] at ha hb
  obtain ⟨hgle, rfl⟩ := hg
  obtain ⟨-, rfl⟩ := ha
  obtain ⟨-, rfl⟩ := hb
  simp only [Option.pure_def, Option.some.injEq] at h
  subst h
  simp [VM.push, VM.push_asm]
  omega

theorem op_not_gas (vm vm' : VM) (h : op_not vm = some vm') : vm'.gas + 3 = vm.gas := by
  unfold op_not at h
  simp only [optBind_eq_some] at h
  obtain ⟨v1, hg, ⟨a, v2⟩, ha, h⟩ := h
  rw [consume_gas_eq_some] at hg
  rw [pop_eq_some] at ha
  obtain ⟨hgle, rfl⟩ := hg
  obtain ⟨-, rfl⟩ := ha
  simp only [Option.pure_def, Option.some.injEq] at h
  subst h
  simp [VM.push, VM.push_asm]
  omega

theorem op_byte_gas (vm vm' : VM) (h : op_byte vm = some vm') : vm'.gas + 3 = vm.gas := by
  unfold op_byte at h
  simp only [optBind_eq_some] at h
  obtain ⟨v1, hg, ⟨a, v2⟩, ha, ⟨b, v3⟩, hb, i, hi, h⟩ := h
  rw [consume_gas_eq_some] at hg
  rw [pop_eq_some] at ha hb
  obtain ⟨hgle, rfl⟩ := hg
  obtain ⟨-, rfl⟩ := ha
  obtain ⟨-, rfl⟩ := hb
  split at h
  · simp only [Option.pure_def, Option.some.injEq] at h
    subst h
    simp [VM.push, VM.push_asm]
    omega
  · exact absurd h (by simp)

theorem op_address_gas (vm vm' : VM) (h : op_address vm = some vm') : vm'.gas + 2 = vm.gas := by
  unfold op_address at h
  simp only [optBind_eq_some] at h
  obtain ⟨v1, hg, h⟩ := h
  rw [consume_gas_eq_some] at hg
  obtain ⟨hgle, rfl⟩ := hg
  simp only [Option.pure_def, Option.some.injEq] at h
  subst h
  simp [VM.push, VM.push_asm]
  omega

theorem op_caller_gas (vm vm' : VM) (h : op_caller vm = some vm') : vm'.gas + 2 = vm.gas := by
  unfold op_caller at h
  simp only [optBind_eq_some] at h
  obtain ⟨v1, hg, h⟩ := h
  rw [consume_gas_eq_some] at hg
  obtain ⟨hgle, rfl⟩ := hg
  simp only [Option.pure_def, Option.some.injEq] at h
  subst h
  simp [VM.push, VM.push_asm]
  omega

theorem op_calldataload_gas (vm vm' : VM) (h : op_calldataload vm = some vm') :
    vm'.gas + 3 = vm.gas := by
  unfold op_calldataload at h
  simp only [optBind_eq_some] at h
  obtain ⟨v1, hg, ⟨a, v2⟩, ha, s, hs, h⟩ := h
  rw [consume_gas_eq_some] at hg
  rw [pop_eq_some] at ha
  obtain ⟨hgle, rfl⟩ := hg
  obtain ⟨-, rfl⟩ := ha
  split at h
  · simp only [Option.pure_def, Option.some.injEq] at h
    subst h
    simp [VM.push, VM.push_asm]
    omega
  · exact absurd h (by simp)

theorem op_calldatasize_gas (vm vm' : VM) (h : op_calldatasize vm = some vm') :
    vm'.gas + 2 = vm.gas := by
  unfold op_calldatasize at h
  simp only [optBind_eq_some] at h
  obtain ⟨v1, hg, h⟩ := h
  rw [consume_gas_eq_some] at hg
  obtain ⟨hgle, rfl⟩ := hg
  simp only [Option.pure_def, Option.some.injEq] at h
  subst h
  simp [VM.push, VM.push_asm]
  omega

theorem op_codecopy_gas (vm vm' : VM) (h : op_codecopy vm = some vm') :
    vm'.gas + 9 = vm.gas := by
  unfold op_codecopy at h
  simp only [optBind_eq_some] at h
  obtain ⟨v1, hg, ⟨a, v2⟩, ha, d1, hd1, ⟨b, v3⟩, hb, d2, hd2, ⟨e, v4⟩, he, d3, hd3, m, hm, h⟩ := h
  rw [consume_gas_eq_some] at hg
  rw [pop_eq_some] at ha hb he
  obtain ⟨hgle, rfl⟩ := hg
  obtain ⟨-, rfl⟩ := ha
  obtain ⟨-, rfl⟩ := hb
  obtain ⟨-, rfl⟩ := he
  simp only [Option.pure_def, Option.some.injEq] at h
  subst h
  simp [VM.push_asm]
  omega

theorem op_mload_gas (vm vm' : VM) (h : op_mload vm = some vm') : vm'.gas + 3 = vm.gas := by
  unfold op_mload at h
  simp only [optBind_eq_some] at h
  obtain ⟨v1, hg, ⟨a, v2⟩, ha, d1, hd1, bs, hbs, h⟩ := h
  rw [consume_gas_eq_some] at hg
  rw [pop_eq_some] at ha
  obtain ⟨hgle, rfl⟩ := hg
  obtain ⟨-, rfl⟩ := ha
  simp only [Option.pure_def, Option.some.injEq] at h
  subst h
  simp [VM.push, VM.push_asm]
  omega

theorem op_mstore_gas (vm vm' : VM) (h : op_mstore vm = some vm') : vm'.gas + 6 = vm.gas := by
  unfold op_mstore at h
  simp only [optBind_eq_some] at h
  obtain ⟨v1, hg, ⟨a, v2⟩, ha, d1, hd1, ⟨b, v3⟩, hb, m, hm, h⟩ := h
  rw [consume_gas_eq_some] at hg
  rw [pop_eq_some] at ha hb
  obtain ⟨hgle, rfl⟩ := hg
  obtain ⟨-, rfl⟩ := ha
  obtain ⟨-, rfl⟩ := hb
  simp only [Option.pure_def, Option.some.injEq] at h
  subst h
  simp [VM.push_asm]
  omega

theorem op_sload_gas (vm : VM) (c : AccountState) (vm' : VM) (c' : AccountState)
    (h : op_sload vm c = some (vm', c')) : vm'.gas + 200 = vm.gas := by
  unfold op_sload at h
  simp only [optBind_eq_some] at h
  obtain ⟨v1, hg, ⟨a, v2⟩, ha, h⟩ := h
  rw [consume_gas_eq_some] at hg
  rw [pop_eq_some] at ha
  obtain ⟨hgle, rfl⟩ := hg
  obtain ⟨-, rfl⟩ := ha
  simp only [Option.pure_def, Option.some.injEq, Prod.mk.injEq] at h
  obtain ⟨rfl, rfl⟩ := h.symm
  simp [VM.push, VM.push_asm]
  omega

theorem op_sstore_gas (vm : VM) (c : AccountState) (vm' : VM) (c' : AccountState)
    (h : op_sstore vm c = some (vm', c')) : vm'.gas + sstoreCost vm.stack = vm.gas := by
  unfold op_sstore at h
  simp only [optBind_eq_some] at h
  obtain ⟨⟨key, v1⟩, hk, ⟨value, v2⟩, hv, h⟩ := h
  rw [pop_eq_some] at hk hv
  obtain ⟨hk1, rfl⟩ := hk
  obtain ⟨hv1, rfl⟩ := hv
  dsimp only at h hv1
  unfold sstoreCost
  rw [hk1, hv1]
  simp only [Option.getD_some]
  by_cases hcond : key = 0 ∧ value ≠ 0
  · rw [if_pos hcond] at h
    rw [if_pos hcond]
    rw [optBind_eq_some] at h
    obtain ⟨v3, hg, h⟩ := h
    rw [consume_gas_eq_some] at hg
    obtain ⟨hgle, rfl⟩ := hg
    simp only [Option.pure_def, Option.some.injEq, Prod.mk.injEq] at h
    obtain ⟨h1, -⟩ := h
    subst h1
    simp only at hgle
    simp [VM.push_asm]
    omega
  · rw [if_neg hcond] at h
    rw [if_neg hcond]
    rw [optBind_eq_some] at h
    obtain ⟨v3, hg, h⟩ := h
    rw [consume_gas_eq_some] at hg
    obtain ⟨hgle, rfl⟩ := hg
    simp only [Option.pure_def, Option.some.injEq, Prod.mk.injEq] at h
    obtain ⟨h1, -⟩ := h
    subst h1
    simp only at hgle
    simp [VM.push_asm]
    omega

theorem op_jump_gas (vm vm' : VM) (h : op_jump vm = some vm') : vm'.gas + 8 = vm.gas := by
  unfold op_jump at h
  simp only [optBind_eq_some] at h
  obtain ⟨v1, hg, ⟨a, v2⟩, ha, d1, hd1, b, hb, h⟩ := h
  rw [consume_gas_eq_some] at hg
  rw [pop_eq_some] at ha
  obtain ⟨hgle, rfl⟩ := hg
  obtain ⟨-, rfl⟩ := ha
  split at h
  · exact absurd h (by simp)
  · simp only [Option.pure_def, Option.some.injEq] at h
    subst h
    simp [VM.push_asm]
    omega

theorem op_jumpi_gas (vm vm' : VM) (h : op_jumpi vm = some vm') : vm'.gas + 10 = vm.gas := by
  unfold op_jumpi at h
  simp only [optBind_eq_some] at h
  obtain ⟨v1, hg, ⟨a, v2⟩, ha, d1, hd1, ⟨b, v3⟩, hb, d2, hd2, e, he, h⟩ := h
  rw [consume_gas_eq_some] at hg
  rw [pop_eq_some] at ha hb
  obtain ⟨hgle, rfl⟩ := hg
  obtain ⟨-, rfl⟩ := ha
  obtain ⟨-, rfl⟩ := hb
  split at h
  · exact absurd h (by simp)
  · split at h <;>
      · simp only [Option.pure_def, Option.some.injEq] at h
        subst h
        simp [VM.push_asm]
        omega

theorem op_jumpdest_gas (vm vm' : VM) (h : op_jumpdest vm = some vm') :
    vm'.gas + 1 = vm.gas := by
  unfold op_jumpdest at h
  simp only [optBind_eq_some] at h
  obtain ⟨v1, hg, h⟩ := h
  rw [consume_gas_eq_some] at hg
  obtain ⟨hgle, rfl⟩ := hg
  simp only [Option.pure_def, Option.some.injEq] at h
  subst h
  simp [VM.push_asm]
  omega

theorem op_push_gas (length : Nat) (vm vm' : VM) (h : op_push length vm = some vm') :
    vm'.gas + 3 = vm.gas := by
  unfold op_push at h
  simp only [optBind_eq_some] at h
  obtain ⟨bs, hbs, v1, hg, h⟩ := h
  rw [consume_gas_eq_some] at hg
  obtain ⟨hgle, rfl⟩ := hg
  simp only at hgle
  simp only [Option.pure_def, Option.some.injEq] at h
  subst h
  simp [VM.push, VM.push_asm]
  omega

theorem op_dup_gas (index : Nat) (vm vm' : VM) (h : op_dup index vm = some vm') :
    vm'.gas + 3 = vm.gas := by
  unfold op_dup at h
  simp only [optBind_eq_some] at h
  obtain ⟨v1, hg, h⟩ := h
  rw [consume_gas_eq_some] at hg
  obtain ⟨hgle, rfl⟩ := hg
  split at h
  · exact absurd h (by simp)
  · rw [optBind_eq_some] at h
    obtain ⟨o, ho, h⟩ := h
    split at h
    · split at h
      · exact absurd h (by simp)
      · split at h
        · simp only [Option.pure_def, Option.some.injEq] at h
          subst h
          simp [VM.push_asm]
          omega
        · exact absurd h (by simp)
    · simp only [Option.pure_def, Option.some.injEq] at h
      subst h
      simp [VM.push, VM.push_asm]
      omega

theorem op_swap_gas (index : Nat) (vm vm' : VM) (h : op_swap index vm = some vm') :
    vm'.gas + 3 = vm.gas := by
  unfold op_swap at h
  simp only [optBind_eq_some] at h
  obtain ⟨v1, hg, h⟩ := h
  rw [consume_gas_eq_some] at hg
  obtain ⟨hgle, rfl⟩ := hg
  split at h
  · exact absurd h (by simp)
  · simp only [optBind_eq_some] at h
    obtain ⟨o1, ho1, o2, ho2, h⟩ := h
    simp only [Option.pure_def, Option.some.injEq] at h
    subst h
    simp [VM.push_asm]
    omega

theorem op_return_gas (vm vm' : VM) (h : op_return vm = some vm') : vm'.gas = vm.gas := by
  unfold op_return at h
  simp only [optBind_eq_some] at h
  obtain ⟨⟨a, v1⟩, ha, d1, hd1, ⟨b, v2⟩, hb, d2, hd2, h⟩ := h
  rw [pop_eq_some] at ha hb
  obtain ⟨-, rfl⟩ := ha
  obtain ⟨-, rfl⟩ := hb
  split at h
  · simp only [Option.pure_def, Option.some.injEq] at h
    subst h
    simp [VM.push_asm]
  · exact absurd h (by simp)

theorem op_stop_gas (vm : VM) : (op_stop vm).gas = vm.gas := rfl

theorem ite_eq_some_elim {α : Type} {c : Prop} [Decidable c] {x y : Option α} {b : α}
    (h : (if c then x else y) = some b) : (c ∧ x = some b) ∨ (¬c ∧ y = some b) := by
  split at h
  · exact Or.inl ⟨‹_›, h⟩
  · exact Or.inr ⟨‹_›, h⟩

theorem mapPair_gas {n : Nat} {f : VM → Option VM}
    (hf : ∀ vm vm', f vm = some vm' → vm'.gas + n = vm.gas)
    {vm vm' : VM} {c c' : AccountState}
    (h : (f vm).map (fun v => (v, c)) = some (vm', c')) : vm'.gas + n = vm.gas := by
  cases hfv : f vm with
  | none => rw [hfv] at h; simp at h
  | some v =>
    rw [hfv] at h
    simp only [Option.map_some', Option.some.injEq, Prod.mk.injEq] at h
    obtain ⟨rfl, rfl⟩ := h
    exact hf vm _ hfv

theorem opCost_push {op : Nat} (s : List Nat) (h1 : 0x60 ≤ op) (h2 : op ≤ 0x7f) :
    opCost op s = 3 := by
  interval_cases op <;> rfl

theorem opCost_dup {op : Nat} (s : List Nat) (h1 : 0x80 ≤ op) (h2 : op ≤ 0x8f) :
    opCost op s = 3 := by
  interval_cases op <;> rfl

theorem opCost_swap {op : Nat} (s : List Nat) (h1 : 0x90 ≤ op) (h2 : op ≤ 0x9f) :
    opCost op s = 3 := by
  interval_cases op <;> rfl

theorem execOp_gas (op : Nat) (vm : VM) (c : AccountState) (vm' : VM) (c' : AccountState)
    (h : execOp op vm c = some (vm', c')) : vm'.gas + opCost op vm.stack = vm.gas := by
  unfold execOp at h
  rcases ite_eq_some_elim h with ⟨hop, h⟩ | ⟨-, h⟩
  · subst hop
    cases h
    simp [op_stop, opCost]
  rcases ite_eq_some_elim h with ⟨hop, h⟩ | ⟨-, h⟩
  · subst hop
    have hc : opCost 0x01 vm.stack = 3 := by simp [opCost]
    rw [hc]
    exact mapPair_gas op_add_gas h
  rcases ite_eq_some_elim h with ⟨hop, h⟩ | ⟨-, h⟩
  · subst hop
    have hc : opCost 0x02 vm.stack = 5 := by simp [opCost]
    rw [hc]
    exact mapPair_gas op_mul_gas h
  rcases ite_eq_some_elim h with ⟨hop, h⟩ | ⟨-, h⟩
  · subst hop
    have hc : opCost 0x03 vm.stack = 3 := by simp [opCost]
    rw [hc]
    exact mapPair_gas op_sub_gas h
  rcases ite_eq_some_elim h with ⟨hop, h⟩ | ⟨-, h⟩
  · subst hop
    have hc : opCost 0x04 vm.stack = 5 := by simp [opCost]
    rw [hc]
    exact mapPair_gas op_div_gas h
  rcases ite_eq_some_elim h with ⟨hop, h⟩ | ⟨-, h⟩
  · subst hop
    have hc : opCost 0x0a vm.stack = 10 := by simp [opCost]
    rw [hc]
    exact mapPair_gas op_exp_gas h
  rcases ite_eq_some_elim h with ⟨hop, h⟩ | ⟨-, h⟩
  · subst hop
    have hc : opCost 0x10 vm.stack = 3 := by simp [opCost]
    rw [hc]
    exact mapPair_gas op_lt_gas h
  rcases ite_eq_some_elim h with ⟨hop, h⟩ | ⟨-, h⟩
  · subst hop
    have hc : opCost 0x11 vm.stack = 3 := by simp [opCost]
    rw [hc]
    exact mapPair_gas op_gt_gas h
  rcases ite_eq_some_elim h with ⟨hop, h⟩ | ⟨-, h⟩
  · subst hop
    have hc : opCost 0x14 vm.stack = 3 := by simp [opCost]
    rw [hc]
    exact mapPair_gas op_eq_gas h
  rcases ite_eq_some_elim h with ⟨hop, h⟩ | ⟨-, h⟩
  · subst hop
    have hc : opCost 0x15 vm.stack = 3 := by simp [opCost]
    rw [hc]
    exact mapPair_gas op_is_zero_gas h
  rcases ite_eq_some_elim h with ⟨hop, h⟩ | ⟨-, h⟩
  · subst hop
    have hc : opCost 0x16 vm.stack = 3 := by simp [opCost]
    rw [hc]
    exact mapPair_gas op_and_gas h
  rcases ite_eq_some_elim h with ⟨hop, h⟩ | ⟨-, h⟩
  · subst hop
    have hc : opCost 0x17 vm.stack = 3 := by simp [opCost]
    rw [hc]
    exact mapPair_gas op_or_gas h
  rcases ite_eq_some_elim h with ⟨hop, h⟩ | ⟨-, h⟩
  · subst hop
    have hc : opCost 0x18 vm.stack = 3 := by simp [opCost]
    rw [hc]
    exact mapPair_gas op_xor_gas h
  rcases ite_eq_some_elim h with ⟨hop, h⟩ | ⟨-, h⟩
  · subst hop
    have hc : opCost 0x19 vm.stack = 3 := by simp [opCost]
    rw [hc]
    exact mapPair_gas op_not_gas h
  rcases ite_eq_some_elim h with ⟨hop, h⟩ | ⟨-, h⟩
  · subst hop
    have hc : opCost 0x1a vm.stack = 3 := by simp [opCost]
    rw [hc]
    exact mapPair_gas op_byte_gas h
  rcases ite_eq_some_elim h with ⟨hop, h⟩ | ⟨-, h⟩
  · subst hop
    have hc : opCost 0x30 vm.stack = 2 := by simp [opCost]
    rw [hc]
    exact mapPair_gas op_address_gas h
  rcases ite_eq_some_elim h with ⟨hop, h⟩ | ⟨-, h⟩
  · subst hop
    have hc : opCost 0x33 vm.stack = 2 := by simp [opCost]
    rw [hc]
    exact mapPair_gas op_caller_gas h
  rcases ite_eq_some_elim h with ⟨hop, h⟩ | ⟨-, h⟩
  · subst hop
    have hc : opCost 0x35 vm.stack = 3 := by simp [opCost]
    rw [hc]
    exact mapPair_gas op_calldataload_gas h
  rcases ite_eq_some_elim h with ⟨hop, h⟩ | ⟨-, h⟩
  · subst hop
    have hc : opCost 0x36 vm.stack = 2 := by simp [opCost]
    rw [hc]
    exact mapPair_gas op_calldatasize_gas h
  rcases ite_eq_some_elim h with ⟨hop, h⟩ | ⟨-, h⟩
  · subst hop
    have hc : opCost 0x39 vm.stack = 9 := by simp [opCost]
    rw [hc]
    exact mapPair_gas op_codecopy_gas h
  rcases ite_eq_some_elim h with ⟨hop, h⟩ | ⟨-, h⟩
  · subst hop
    have hc : opCost 0x51 vm.stack = 3 := by simp [opCost]
    rw [hc]
    exact mapPair_gas op_mload_gas h
  rcases ite_eq_some_elim h with ⟨hop, h⟩ | ⟨-, h⟩
  · subst hop
    have hc : opCost 0x52 vm.stack = 6 := by simp [opCost]
    rw [hc]
    exact mapPair_gas op_mstore_gas h
  rcases ite_eq_some_elim h with ⟨hop, h⟩ | ⟨-, h⟩
  · subst hop
    have hc : opCost 0x54 vm.stack = 200 := by simp [opCost]
    rw [hc]
    exact op_sload_gas vm c vm' c' h
  rcases ite_eq_some_elim h with ⟨hop, h⟩ | ⟨-, h⟩
  · subst hop
    have hc : opCost 0x55 vm.stack = sstoreCost vm.stack := by simp [opCost]
    rw [hc]
    exact op_sstore_gas vm c vm' c' h
  rcases ite_eq_some_elim h with ⟨hop, h⟩ | ⟨-, h⟩
  · subst hop
    have hc : opCost 0x56 vm.stack = 8 := by simp [opCost]
    rw [hc]
    exact mapPair_gas op_jump_gas h
  rcases ite_eq_some_elim h with ⟨hop, h⟩ | ⟨-, h⟩
  · subst hop
    have hc : opCost 0x57 vm.stack = 10 := by simp [opCost]
    rw [hc]
    exact mapPair_gas op_jumpi_gas h
  rcases ite_eq_some_elim h with ⟨hop, h⟩ | ⟨-, h⟩
  · subst hop
    have hc : opCost 0x5b vm.stack = 1 := by simp [opCost]
    rw [hc]
    exact mapPair_gas op_jumpdest_gas h
  rcases ite_eq_some_elim h with ⟨hop, h⟩ | ⟨-, h⟩
  · rw [opCost_push vm.stack hop.1 hop.2]
    exact mapPair_gas (op_push_gas _) h
  rcases ite_eq_some_elim h with ⟨hop, h⟩ | ⟨-, h⟩
  · rw [opCost_dup vm.stack hop.1 hop.2]
    exact mapPair_gas (op_dup_gas _) h
  rcases ite_eq_some_elim h with ⟨hop, h⟩ | ⟨-, h⟩
  · rw [opCost_swap vm.stack hop.1 hop.2]
    exact mapPair_gas (op_swap_gas _) h
  rcases ite_eq_some_elim h with ⟨hop, h⟩ | ⟨-, h⟩
  · subst hop
    have hc : opCost 0xf3 vm.stack = 0 := by simp [opCost]
    rw [hc]
    exact mapPair_gas (fun v v2 hv => by rw [Nat.add_zero]; exact op_return_gas v v2 hv) h
  exact absurd h (by simp)

theorem exec_gas (vm : VM) (c : AccountState) (vm' : VM) (c' : AccountState) (b : Bool)
    (h : exec vm c = some (vm', c', b)) : vm'.gas + dispatchCost vm = vm.gas := by
  unfold exec at h
  simp only [optBind_eq_some] at h
  obtain ⟨op, hop, ⟨v, c2⟩, hx, h⟩ := h
  simp only [Option.pure_def, Option.some.injEq, Prod.mk.injEq] at h
  obtain ⟨rfl, rfl, -⟩ := h
  unfold dispatchCost
  rw [hop]
  have h2 := execOp_gas op { vm with pc := vm.pc + 1 } c _ _ hx
  simpa using h2

theorem run_gas (fuel : Nat) :
    ∀ vm c vm' c', exec_transaction fuel vm c = some (vm', c') →
      ∃ l, traceCosts fuel vm c = some l ∧ vm'.gas + l.sum = vm.gas := by
  induction fuel with
  | zero =>
    intro vm c vm' c' h
    simp [exec_transaction] at h
  | succ n ih =>
    intro vm c vm' c' h
    unfold exec_transaction at h
    unfold traceCosts
    split at h
    · rename_i hend
      simp only [Option.some.injEq, Prod.mk.injEq] at h
      obtain ⟨rfl, rfl⟩ := h
      rw [if_pos hend]
      exact ⟨[], rfl, by simp⟩
    · rename_i hend
      rw [if_neg hend]
      cases hx : exec vm c with
      | none => rw [hx] at h; exact absurd h (by simp)
      | some t =>
        obtain ⟨v2, c2, b⟩ := t
        rw [hx] at h
        cases b with
        | true =>
          simp only [Option.some.injEq, Prod.mk.injEq] at h
          obtain ⟨rfl, rfl⟩ := h
          refine ⟨[dispatchCost vm], rfl, ?_⟩
          have hg := exec_gas vm c _ _ true hx
          simp only [List.sum_cons, List.sum_nil]
          omega
        | false =>
          obtain ⟨l, hl, hsum⟩ := ih v2 c2 vm' c' h
          have hg := exec_gas vm c v2 c2 false hx
          refine ⟨dispatchCost vm :: l, ?_, ?_⟩
          · show (traceCosts n v2 c2).map (fun l => dispatchCost vm :: l) =
              some (dispatchCost vm :: l)
            rw [hl]
            rfl
          · simp only [List.sum_cons]
            omega


theorem optBind_some {α β : Type} (a : α) (f : α → Option β) :
    (some a >>= f) = f a := rfl

theorem pop_concat (vm : VM) (s : List Nat) (a : Nat) (h : vm.stack = s ++ [a]) :
    vm.pop = some (a, { vm with stack := s, sp := vm.sp - 1 }) := by
  unfold VM.pop
  rw [h, List.getLast?_concat, List.dropLast_concat]

theorem consume_gas_of_le {n : Nat} {vm : VM} (h : n ≤ vm.gas) :
    consume_gas n vm = some { vm with gas := vm.gas - n } :=
  consume_gas_eq_some.mpr ⟨h, rfl⟩

theorem toU32_lt {w : Nat} (h : w < 2 ^ 32) : toU32 w = some w := by
  unfold toU32
  rw [if_pos h]

theorem toU32_ge {w : Nat} (h : 2 ^ 32 ≤ w) : toU32 w = none := by
  unfold toU32
  rw [if_neg (by omega)]

theorem readBytes_some {l : List Nat} :
    ∀ {n start : Nat}, start + n ≤ l.length →
      readBytes l start n = some ((l.drop start).take n) := by
  intro n
  induction n with
  | zero =>
    intro start h
    simp [readBytes]
  | succ m ih =>
    intro start h
    have hlt : start < l.length := by omega
    unfold readBytes
    simp only [List.get?_eq_get hlt, optBind_some,
      ih (show start + 1 + m ≤ l.length by omega), Option.pure_def, Option.some.injEq]
    rw [List.drop_eq_getElem_cons hlt, List.take_succ_cons, List.get_eq_getElem]

theorem readBytes_none {l : List Nat} :
    ∀ {n start : Nat}, l.length < start + n + 1 →
      readBytes l start (n + 1) = none := by
  intro n
  induction n with
  | zero =>
    intro start h
    unfold readBytes
    rw [List.get?_eq_none.mpr (by omega)]
    rfl
  | succ m ih =>
    intro start h
    by_cases hlt : start < l.length
    · unfold readBytes
      simp only [List.get?_eq_get hlt, optBind_some]
      rw [ih (show l.length < start + 1 + m + 1 by omega)]
      rfl
    · unfold readBytes
      rw [List.get?_eq_none.mpr (by omega)]
      rfl

theorem readBytes32_none {l : List Nat} {start : Nat} (h : l.length < start + 32) :
    readBytes l start 32 = none := by
  have h2 := @readBytes_none l 31 start (by omega)
  exact h2


/-- C5 counterexample: executing DIV with divisor b = 0 aborts (the `U256`
division panics) instead of pushing zero, refuting the claim that "if b = 0
the pushed result is zero (execution does not abort)". -/
theorem div_zero_cex : op_div divZeroVM = none := by decide

/-- C5 (amended): for DIV with top-of-stack a over b, when b ≠ 0 the handler
pushes the quotient a ÷ b and consumes 5 gas; when b = 0 execution aborts
fatally. -/
theorem div_spec (vm : VM) (s : List Nat) (a b : Nat)
    (hst : vm.stack = s ++ [b, a]) (hg : 5 ≤ vm.gas) :
    (b = 0 → op_div vm = none)
    ∧ (b ≠ 0 → op_div vm = some { vm with
        gas := vm.gas - 5
        asm := vm.asm ++ ["DIV"]
        stack := s ++ [a / b]
        sp := vm.sp - 1 - 1 + 1 }) := by
  have hp1 : ({ vm with gas := vm.gas - 5 }.push_asm "DIV").pop
      = some (a, { vm with
          gas := vm.gas - 5
          asm := vm.asm ++ ["DIV"]
          stack := s ++ [b]
          sp := vm.sp - 1 }) := by
    apply pop_concat
    simp [VM.push_asm, hst]
  have hp2 : ({ vm with
          gas := vm.gas - 5
          asm := vm.asm ++ ["DIV"]
          stack := s ++ [b]
          sp := vm.sp - 1 } : VM).pop
      = some (b, { vm with
          gas := vm.gas - 5
          asm := vm.asm ++ ["DIV"]
          stack := s
          sp := vm.sp - 1 - 1 }) := by
    apply pop_concat
    rfl
  constructor
  · intro hb
    subst hb
    simp only [op_div, consume_gas_of_le hg, optBind_some, hp1, hp2]
    simp
  · intro hb
    simp only [op_div, consume_gas_of_le hg, optBind_some, hp1, hp2]
    rw [if_neg hb]
    rfl

/-- C5 witness: DIV of 7 by 0 aborts; DIV of 6 by 2 pushes 3 and consumes 5
gas. -/
theorem div_spec_witness :
    op_div (testVM [0x04] [] [0, 7] [] 0 10) = none
    ∧ op_div (testVM [0x04] [] [2, 6] [] 0 10) = some { testVM [0x04] [] [2, 6] [] 0 10 with
        gas := 5, asm := ["DIV"], stack := [3], sp := 1 } :=
  ⟨(div_spec _ [] 7 0 rfl (by decide)).1 rfl,
   (div_spec _ [] 6 2 rfl (by decide)).2 (by decide)⟩

/-- C6 counterexample: MLOAD at offset 0 with only 3 bytes of memory written
aborts (out-of-range `Vec` indexing) instead of treating the bytes past the
end as zero, refuting "the load never aborts merely because the window
extends past the written region". -/
theorem mload_oob_cex : op_mload mloadVM6 = none := by decide

/-- C6 (amended): MLOAD pushes the 32 bytes of memory starting at a when the
whole window is within the written region (a + 32 ≤ len(memory)), and aborts
fatally as soon as the window extends past the end of memory. -/
theorem mload_spec (vm : VM) (s : List Nat) (a : Nat)
    (hst : vm.stack = s ++ [a]) (hg : 3 ≤ vm.gas) (ha : a < 2 ^ 32) :
    (a + 32 ≤ vm.memory.length → op_mload vm = some { vm with
        gas := vm.gas - 3
        asm := vm.asm ++ ["MLOAD"]
        stack := s ++ [bytesToWord ((vm.memory.drop a).take 32)]
        sp := vm.sp - 1 + 1 })
    ∧ (vm.memory.length < a + 32 → op_mload vm = none) := by
  have hp1 : ({ vm with gas := vm.gas - 3 }.push_asm "MLOAD").pop
      = some (a, { vm with
          gas := vm.gas - 3
          asm := vm.asm ++ ["MLOAD"]
          stack := s
          sp := vm.sp - 1 }) := by
    apply pop_concat
    simp [VM.push_asm, hst]
  constructor
  · intro hlen
    simp only [op_mload, consume_gas_of_le hg, optBind_some, hp1, toU32_lt ha,
      readBytes_some hlen]
    rfl
  · intro hlen
    simp only [op_mload, consume_gas_of_le hg, optBind_some, hp1, toU32_lt ha,
      readBytes32_none hlen]
    rfl

/-- C6 witness: MLOAD at 0 over exactly 32 written bytes pushes their word;
MLOAD at 0 over 3 written bytes aborts. -/
theorem mload_spec_witness :
    op_mload (testVM [0x51] [] [0] (wordToBytes 9) 0 10)
      = some { testVM [0x51] [] [0] (wordToBytes 9) 0 10 with
          gas := 7, asm := ["MLOAD"], stack := [9], sp := 1 }
    ∧ op_mload mloadVM6 = none :=
  ⟨(mload_spec _ [] 0 rfl (by decide) (by decide)).1 (by decide),
   (mload_spec mloadVM6 [] 0 rfl (by decide) (by decide)).2 (by decide)⟩

/-- C7 counterexample: BYTE with index 32 aborts (the `usize` computation
`248 - 32 * 8` underflows) instead of pushing zero, refuting "equals zero
for every i ≥ 32". -/
theorem byte_index32_cex : op_byte byteVM = none := by decide

/-- C7 (amended): BYTE with top-of-stack index i and second operand x pushes
`(x >>> (248 - 8 i)) &&& 0xff` — byte i of x counted from the
most-significant end — when i ≤ 31, and aborts fatally for every i ≥ 32
(usize underflow for 32 ≤ i < 2^32, `as_u32` panic for i ≥ 2^32). -/
theorem byte_spec (vm : VM) (s : List Nat) (x i : Nat)
    (hst : vm.stack = s ++ [x, i]) (hg : 3 ≤ vm.gas) :
    (i ≤ 31 → op_byte vm = some { vm with
        gas := vm.gas - 3
        asm := vm.asm ++ ["BYTE"]
        stack := s ++ [Nat.land (x >>> (248 - 8 * i)) 0xff]
        sp := vm.sp - 1 - 1 + 1 })
    ∧ (32 ≤ i → op_byte vm = none) := by
  have hp1 : ({ vm with gas := vm.gas - 3 }.push_asm "BYTE").pop
      = some (i, { vm with
          gas := vm.gas - 3
          asm := vm.asm ++ ["BYTE"]
          stack := s ++ [x]
          sp := vm.sp - 1 }) := by
    apply pop_concat
    simp [VM.push_asm, hst]
  have hp2 : ({ vm with
          gas := vm.gas - 3
          asm := vm.asm ++ ["BYTE"]
          stack := s ++ [x]
          sp := vm.sp - 1 } : VM).pop
      = some (x, { vm with
          gas := vm.gas - 3
          asm := vm.asm ++ ["BYTE"]
          stack := s
          sp := vm.sp - 1 - 1 }) := by
    apply pop_concat
    rfl
  constructor
  · intro hi
    simp only [op_byte, consume_gas_of_le hg, optBind_some, hp1, hp2,
      toU32_lt (show i < 2 ^ 32 by omega)]
    rw [if_pos (by omega)]
    rfl
  · intro hi
    by_cases hsmall : i < 2 ^ 32
    · simp only [op_byte, consume_gas_of_le hg, optBind_some, hp1, hp2, toU32_lt hsmall]
      rw [if_neg (by omega)]
    · simp only [op_byte, consume_gas_of_le hg, optBind_some, hp1, hp2,
        toU32_ge (show 2 ^ 32 ≤ i by omega)]
      rfl

/-- C7 witness: BYTE with index 31 extracts the least-significant byte 0xab;
BYTE with index 32 aborts. -/
theorem byte_spec_witness :
    op_byte (testVM [0x1a] [] [0xab, 31] [] 0 10)
      = some { testVM [0x1a] [] [0xab, 31] [] 0 10 with
          gas := 7, asm := ["BYTE"], stack := [0xab], sp := 1 }
    ∧ op_byte byteVM = none :=
  ⟨(byte_spec _ [] 0xab 31 rfl (by decide)).1 (by decide),
   (byte_spec byteVM [] 5 32 rfl (by decide)).2 (by decide)⟩

/-- C8 counterexample: CALLDATALOAD with index 2 against 1 byte of calldata
aborts (the slice `input[2..]` is out of range) instead of pushing a
zero-padded word, refuting "including when a is at or past the end of the
input ... the load never aborts". -/
theorem calldataload_past_end_cex : op_calldataload cdlVM = none := by decide

/-- C8 (amended): CALLDATALOAD with index a pushes the 32 bytes of calldata
starting at a, zero-padded on the right when fewer than 32 bytes remain
(`slice_to_array`), for every a up to and including the input length; it
aborts fatally when a is strictly past the end of the input (and when
a ≥ 2^32). -/
theorem calldataload_spec (vm : VM) (s : List Nat) (a : Nat)
    (hst : vm.stack = s ++ [a]) (hg : 3 ≤ vm.gas) :
    (a < 2 ^ 32 → a ≤ vm.env.input.length → op_calldataload vm = some { vm with
        gas := vm.gas - 3
        asm := vm.asm ++ ["CALLDATALOAD"]
        stack := s ++ [bytesToWord (slice_to_array (vm.env.input.drop a))]
        sp := vm.sp - 1 + 1 })
    ∧ (a < 2 ^ 32 → vm.env.input.length < a → op_calldataload vm = none)
    ∧ (2 ^ 32 ≤ a → op_calldataload vm = none) := by
  have hp1 : ({ vm with gas := vm.gas - 3 }.push_asm "CALLDATALOAD").pop
      = some (a, { vm with
          gas := vm.gas - 3
          asm := vm.asm ++ ["CALLDATALOAD"]
          stack := s
          sp := vm.sp - 1 }) := by
    apply pop_concat
    simp [VM.push_asm, hst]
  refine ⟨?_, ?_, ?_⟩
  · intro h32 hlen
    simp only [op_calldataload, consume_gas_of_le hg, optBind_some, hp1, toU32_lt h32]
    rw [if_pos hlen]
    rfl
  · intro h32 hlen
    simp only [op_calldataload, consume_gas_of_le hg, optBind_some, hp1, toU32_lt h32]
    rw [if_neg (by omega)]
  · intro h32
    simp only [op_calldataload, consume_gas_of_le hg, optBind_some, hp1, toU32_ge h32]
    rfl

/-- C8 witness: CALLDATALOAD at 0 against the single calldata byte 7 pushes
the right-zero-padded word 7·2^248; at index 2 it aborts. -/
theorem calldataload_spec_witness :
    op_calldataload (testVM [0x35] [7] [0] [] 0 10)
      = some { testVM [0x35] [7] [0] [] 0 10 with
          gas := 7, asm := ["CALLDATALOAD"], stack := [7 * 2 ^ 248], sp := 1 }
    ∧ op_calldataload cdlVM = none :=
  ⟨(calldataload_spec _ [] 0 rfl (by decide)).1 (by decide) (by decide),
   (calldataload_spec cdlVM [] 2 rfl (by decide)).2.1 (by decide) (by decide)⟩


/-- C1: the source's DUP is broken.  Dispatching DUP1 on the stack [5, 4]
(top 4, depth 2) with gas 10 *overwrites* the slot below the top instead of
pushing: the result has stack [4, 4] and depth 2, where the claim requires
stack [5, 4, 4] and depth 3 with all pre-existing slots unchanged.  This
evaluation also matches the source's own `test_dup1` assertions. -/
theorem dup_overwrites_slot :
    exec dupVM st0 = some (dupVMOut, st0, false)
    ∧ dupVMOut.stack.length = dupVM.stack.length
    ∧ dupVMOut.stack = [4, 4] := by decide

/-- C2 counterexample: the dispatcher's end-of-transaction flag is true at
opcode 0xf3 (RETURN) — not 0x3f as claimed — and at opcode 0x3f
(EXTCODEHASH) the dispatch aborts instead of returning false. -/
theorem exec_halt_flag_cex :
    exec retVM st0 = some (retVMOut, st0, true)
    ∧ retVM.env.code.get? retVM.pc = some 0xf3
    ∧ (0xf3 : Nat) ≠ 0x3f
    ∧ exec extVM st0 = none := by decide

/-- C2 (amended): for every dispatch that completes, the end-of-transaction
flag is true iff the dispatched opcode byte is 0xf3 (RETURN). -/
theorem exec_halt_iff (vm : VM) (c : AccountState) (vm' : VM) (c' : AccountState)
    (b : Bool) (op : Nat) (hop : vm.env.code.get? vm.pc = some op)
    (h : exec vm c = some (vm', c', b)) : b = true ↔ op = 0xf3 := by
  unfold exec at h
  rw [hop] at h
  simp only [optBind_some, optBind_eq_some] at h
  obtain ⟨⟨v, c2⟩, hx, h⟩ := h
  simp only [Option.pure_def, Option.some.injEq, Prod.mk.injEq] at h
  obtain ⟨-, -, hb⟩ := h
  subst hb
  simp

/-- C2 witness: the amended iff applied to the completed RETURN dispatch of
`retVM`. -/
theorem exec_halt_iff_witness : true = true ↔ (0xf3 : Nat) = 0xf3 :=
  exec_halt_iff retVM st0 retVMOut st0 true 0xf3 (by decide) (by decide)

set_option maxRecDepth 10000 in
/-- C3 counterexample: dispatching PUSH1 7 on a machine whose stack already
holds 1024 words succeeds (no StackOverflow) and yields depth 1025,
refuting both "fails fatally" and "never produces a stack of depth greater
than 1024". -/
theorem push_overflow_cex :
    exec fullVM st0 = some (fullVMOut, st0, false)
    ∧ fullVMOut.stack.length = 1025 := by decide

/-- C3 (amended): `VM::push` performs no depth check at all — it
unconditionally appends the word and increments the depth by one, so a push
on a stack of depth 1024 succeeds with depth 1025. -/
theorem push_no_limit (vm : VM) (v : Nat) :
    (vm.push v).stack = vm.stack ++ [v]
    ∧ (vm.push v).stack.length = vm.stack.length + 1
    ∧ (vm.push v).sp = vm.sp + 1 := by
  refine ⟨rfl, ?_, rfl⟩
  simp [VM.push]

/-- C4: memory stores are not idempotent and unwritten memory is not
readable as zero.  MSTORE(0, 9) on empty memory leaves the 32 bytes of the
value; running the identical MSTORE(0, 9) again inserts (shifts, not
overwrites) 32 further bytes, leaving 64 bytes — the value duplicated — so
twice differs from once.  MLOAD at offset 0 of completely unwritten memory
aborts instead of returning zero. -/
theorem mstore_not_idempotent :
    op_mstore mstVM = some mstOnce
    ∧ op_mstore mstAgain = some mstTwice
    ∧ mstTwice.memory ≠ mstOnce.memory
    ∧ mstOnce.memory.length = 32
    ∧ mstTwice.memory.length = 64
    ∧ op_mload mloadVM = none := by decide

/-- C9: `consume_gas n` subtracts exactly n when n ≤ gas and aborts when
gas < n; consequently, along every completed `exec_transaction` run the
per-opcode costs of the dispatched opcodes (`traceCosts`) sum to
initial gas − final gas, and gas never increases. -/
theorem gas_accounting :
    (∀ n vm, (n ≤ vm.gas → consume_gas n vm = some { vm with gas := vm.gas - n })
      ∧ (vm.gas < n → consume_gas n vm = none))
    ∧ (∀ fuel vm c vm' c' l, exec_transaction fuel vm c = some (vm', c') →
        traceCosts fuel vm c = some l →
        vm'.gas + l.sum = vm.gas ∧ vm'.gas ≤ vm.gas)
    ∧ (∀ fuel vm c vm' c', exec_transaction fuel vm c = some (vm', c') →
        ∃ l, traceCosts fuel vm c = some l) := by
  refine ⟨?_, ?_, ?_⟩
  · intro n vm
    exact ⟨fun hle => consume_gas_of_le hle,
           fun hlt => by unfold consume_gas; rw [if_neg (by omega)]⟩
  · intro fuel vm c vm' c' l hrun htr
    obtain ⟨l2, hl2, hsum⟩ := run_gas fuel vm c vm' c' hrun
    rw [htr] at hl2
    cases hl2
    exact ⟨hsum, by omega⟩
  · intro fuel vm c vm' c' hrun
    obtain ⟨l2, hl2, -⟩ := run_gas fuel vm c vm' c' hrun
    exact ⟨l2, hl2⟩

/-- C9 witness: the ADD program (its costs 3 + 3 + 3 are the trace) runs
from 100 gas down to 91, and a concrete `consume_gas` subtracts exactly. -/
theorem gas_accounting_witness :
    consume_gas 3 addVM = some { addVM with gas := 97 }
    ∧ (addVMFinal.gas + [3, 3, 3].sum = addVM.gas ∧ addVMFinal.gas ≤ addVM.gas) :=
  ⟨(gas_accounting.1 3 addVM).1 (by decide),
   gas_accounting.2.1 10 addVM st0 addVMFinal st0 [3, 3, 3] (by decide) (by decide)⟩

/-- C10: `VM::new` computes the initial gas as `value / gas_price` (usize
integer division) and panics — before any opcode runs — when the
environment's gas price is zero. -/
theorem vm_new_spec (env : Environment) :
    (env.gas_price = 0 → VM.new env = none)
    ∧ (env.gas_price ≠ 0 → VM.new env = some
        { env := env, pc := 0, gas := env.value / env.gas_price, sp := 0,
          stack := [], memory := [], asm := [], returns := [] }) := by
  constructor
  · intro h
    unfold VM.new
    rw [if_pos h]
  · intro h
    unfold VM.new
    rw [if_neg h]

/-- C10 witness: a zero gas price makes construction fail; the `test_new`
environment yields initial gas 10_000_000_000 = value / gas_price. -/
theorem vm_new_spec_witness :
    VM.new envZeroPrice = none
    ∧ VM.new envTen = some
        { env := envTen, pc := 0, gas := 10000000000, sp := 0,
          stack := [], memory := [], asm := [], returns := [] } :=
  ⟨(vm_new_spec envZeroPrice).1 rfl, (vm_new_spec envTen).2 (by decide)⟩

end ToyEVM
